import Mathlib

/-!
Verification of the `expanduser` library (`src/lib.rs`): expansion of a
leading tilde expression (`~`, `~user`, `~root`) in a filesystem path.

Embedding notes.  Paths are Unix byte strings, modelled as `List Nat`
(one entry per byte).  Rust's `Path::components()` iterator for Unix is
embedded as `components`, producing the component sequence (`RootDir`,
`CurDir`, `ParentDir`, `Normal bytes`).  `Path`/`PathBuf` equality in
Rust compares component sequences, so the observable result of
`expand_user` is modelled as the component list of the final `PathBuf`:
`PathBuf::push` of a byte string onto the buffer is embedded at that
level by `pushPath` (an absolute pushed path replaces the buffer, the
components of a relative pushed path are appended), and pushing the
iterator remainder appends the remaining components.  `OsStr::to_str`
succeeds exactly on valid UTF-8, embedded by the byte-level validator
`validUtf8` (same table as Rust's `str` validation); for a valid
component, comparison with `"~"`, `starts_with("~")` and the byte slice
`prefix[1..]` are byte-level operations on the component's bytes.
The two collaborators — `dirs_sys::home_dir()` and `libc::getpwnam` —
are an explicit environment `Env`; a `getpwnam` record is `Passwd` with
an optional `pw_dir` byte string (`none` models a null `pw_dir`
pointer).  `CString::new(user)` fails exactly when the byte string
contains a null byte.
-/

namespace ExpandUser

/-- A Unix path component, as in Rust's `std::path::Component`
(`Prefix` does not occur on Unix). `normal` carries the raw `OsStr`
bytes of the component. -/
inductive Component where
  | rootDir
  | curDir
  | parentDir
  | normal (bytes : List Nat)
deriving DecidableEq

/-- Auxiliary splitter: cut a byte string at every `/` (byte 47),
accumulating the current segment in reverse. -/
def splitSegsAux : List Nat → List Nat → List (List Nat)
  | [], acc => [acc.reverse]
  | b :: rest, acc =>
    if b = 47 then acc.reverse :: splitSegsAux rest []
    else splitSegsAux rest (b :: acc)

/-- Segments of a byte string between `/` separators. -/
def splitSegs (bs : List Nat) : List (List Nat) := splitSegsAux bs []

/-- The components iterator skips empty segments and `.` segments
(except for a leading `.`, handled separately). -/
def keepSeg (s : List Nat) : Bool := !s.isEmpty && s ≠ [46]

/-- A kept segment is `..` (→ `ParentDir`) or a normal component. -/
def compOfSeg (s : List Nat) : Component :=
  if s = [46, 46] then Component.parentDir else Component.normal s

/-- A Unix path has a root iff it starts with `/`. -/
def hasRoot (bs : List Nat) : Bool := bs.head? = some 47

/-- Rust's `Components::include_cur_dir`: the path has no root and
starts with `.` followed by nothing or a separator. -/
def includeCurDir (bs : List Nat) : Bool :=
  !hasRoot bs && bs.head? = some 46 && (bs.tail.isEmpty || bs.tail.head? = some 47)

/-- Rust's `Path::components()` on Unix: optional root, optional
leading `.`, then every kept segment in order. -/
def components (bs : List Nat) : List Component :=
  (if hasRoot bs then [Component.rootDir] else []) ++
  (if includeCurDir bs then [Component.curDir] else []) ++
  ((splitSegs bs).filter keepSeg).map compOfSeg

/-- A UTF-8 continuation byte: `0x80 ≤ b < 0xC0`. -/
def contByte (b : Nat) : Bool := 128 ≤ b && b < 192

/-- Byte-level UTF-8 validity, with exactly the ranges accepted by
Rust's `str` validation (rejecting overlong forms, surrogates and
code points above `U+10FFFF`). `OsStr::to_str` returns `Some` iff
this holds of the bytes. -/
def validUtf8 : List Nat → Bool
  | [] => true
  | b0 :: rest =>
    if b0 < 128 then validUtf8 rest
    else
      match rest with
      | [] => false
      | b1 :: rest1 =>
        if 194 ≤ b0 && b0 < 224 then contByte b1 && validUtf8 rest1
        else
          match rest1 with
          | [] => false
          | b2 :: rest2 =>
            if b0 = 224 then
              (160 ≤ b1 && b1 < 192) && contByte b2 && validUtf8 rest2
            else if 225 ≤ b0 && b0 < 237 then
              contByte b1 && contByte b2 && validUtf8 rest2
            else if b0 = 237 then
              (128 ≤ b1 && b1 < 160) && contByte b2 && validUtf8 rest2
            else if 238 ≤ b0 && b0 < 240 then
              contByte b1 && contByte b2 && validUtf8 rest2
            else
              match rest2 with
              | [] => false
              | b3 :: rest3 =>
                if b0 = 240 then
                  (144 ≤ b1 && b1 < 192) && contByte b2 && contByte b3 &&
                    validUtf8 rest3
                else if 241 ≤ b0 && b0 < 244 then
                  contByte b1 && contByte b2 && contByte b3 && validUtf8 rest3
                else if b0 = 244 then
                  (128 ≤ b1 && b1 < 144) && contByte b2 && contByte b3 &&
                    validUtf8 rest3
                else false

/-- UTF-8 encoding of one scalar value (Lean `Char` is a Unicode
scalar, as is Rust `char`). -/
def encodeChar (c : Char) : List Nat :=
  let n := c.toNat
  if n < 128 then [n]
  else if n < 2048 then [192 + n / 64, 128 + n % 64]
  else if n < 65536 then [224 + n / 4096, 128 + n / 64 % 64, 128 + n % 64]
  else [240 + n / 262144, 128 + n / 4096 % 64, 128 + n / 64 % 64, 128 + n % 64]

/-- The UTF-8 bytes of a string literal (Rust `&str` / `String`). -/
def strBytes (s : String) : List Nat :=
  s.data.foldr (fun c acc => encodeChar c ++ acc) []

/-- A `getpwnam` record: `pw_dir = none` models a null `pw_dir`
pointer, `some d` the null-terminated byte string `d` (read raw by
`CStr::to_bytes` / `OsStr::from_bytes`, no charset validation). -/
structure Passwd where
  pw_dir : Option (List Nat)
deriving DecidableEq

/-- The two external collaborators: `dirs_sys::home_dir()` (bytes of
the returned `PathBuf`, if any) and `libc::getpwnam`, keyed by the
username bytes that `CString::new` would encode. -/
structure Env where
  home_dir : Option (List Nat)
  getpwnam : List Nat → Option Passwd

/-- The error type `ExpandUserError` of `src/lib.rs`; payloads carry
the UTF-8 bytes of the `String` payload of the Rust variant. -/
inductive ExpandUserError where
  | currentUserHomeNotFound
  | userNotFound (user : List Nat)
  | userHomeNotFound (user : List Nat)
  | invalidTildeExpression (expr : List Nat)
deriving DecidableEq

/-- `get_user_home` of `src/lib.rs`: `CString::new` fails iff the
username bytes contain a null byte (→ `InvalidTildeExpression`); a
null `getpwnam` result → `UserNotFound`; a record with null `pw_dir`
→ `UserHomeNotFound`; otherwise the raw home-directory bytes. -/
def get_user_home (env : Env) (user : List Nat) :
    Except ExpandUserError (List Nat) :=
  if 0 ∈ user then
    Except.error (ExpandUserError.invalidTildeExpression user)
  else
    match env.getpwnam user with
    | none => Except.error (ExpandUserError.userNotFound user)
    | some pw =>
      match pw.pw_dir with
      | none => Except.error (ExpandUserError.userHomeNotFound user)
      | some d => Except.ok d

/-- `PathBuf::push`, observed at the component level: pushing an
absolute path replaces the buffer, otherwise the pushed components are
appended. -/
def pushPath (buf p : List Component) : List Component :=
  if p.head? = some Component.rootDir then p else buf ++ p

/-- `Component::as_os_str`: the bytes a component contributes when it
is itself pushed onto a `PathBuf`. -/
def compBytes : Component → List Nat
  | Component.rootDir => [47]
  | Component.curDir => [46]
  | Component.parentDir => [46, 46]
  | Component.normal s => s

/-- The body of `expand_user` of `src/lib.rs`, on the component
sequence of the input: `components.next()` is the head; `None` returns
the empty `PathBuf`; a `Normal` head is matched on `to_str()` —
`Some("~")` pushes the `home_dir()` result or fails, a valid `~`-led
component takes `prefix[1..]` as the assumed user (pushing `/root`
directly when it equals `root`, else pushing `get_user_home`'s result,
with `?` propagating its error), and any other head is pushed
unchanged; finally the remaining components are pushed. -/
def expandComponents (env : Env) : List Component → Except ExpandUserError (List Component)
  | [] => Except.ok []
  | c :: rest =>
    match c with
    | Component.normal part =>
      if validUtf8 part then
        if part = [126] then
          match env.home_dir with
          | some dir => Except.ok (pushPath (pushPath [] (components dir)) rest)
          | none => Except.error ExpandUserError.currentUserHomeNotFound
        else if part.head? = some 126 then
          if part.tail = strBytes "root" then
            Except.ok (pushPath (pushPath [] (components (strBytes "/root"))) rest)
          else
            match get_user_home env part.tail with
            | Except.error e => Except.error e
            | Except.ok home => Except.ok (pushPath (pushPath [] (components home)) rest)
        else Except.ok (pushPath (pushPath [] (components part)) rest)
      else Except.ok (pushPath (pushPath [] (components part)) rest)
    | c0 => Except.ok (pushPath (pushPath [] (components (compBytes c0))) rest)

/-- `expand_user` of `src/lib.rs` on the raw path bytes: iterate the
input's components and run the body. The result is the component
sequence of the returned `PathBuf` (the observable under Rust `Path`
equality) or the `ExpandUserError`. -/
def expand_user (env : Env) (p : List Nat) : Except ExpandUserError (List Component) :=
  expandComponents env (components p)

/-- Resolution of the first component alone: the replacement for the
leading component, before the remaining components are pushed. -/
def expandFirst (env : Env) : Component → Except ExpandUserError (List Component)
  | Component.normal part =>
    if validUtf8 part then
      if part = [126] then
        match env.home_dir with
        | some dir => Except.ok (pushPath [] (components dir))
        | none => Except.error ExpandUserError.currentUserHomeNotFound
      else if part.head? = some 126 then
        if part.tail = strBytes "root" then
          Except.ok (pushPath [] (components (strBytes "/root")))
        else
          match get_user_home env part.tail with
          | Except.error e => Except.error e
          | Except.ok home => Except.ok (pushPath [] (components home))
      else Except.ok (pushPath [] (components part))
    else Except.ok (pushPath [] (components part))
  | c0 => Except.ok (pushPath [] (components (compBytes c0)))

/-- First component does not start with a tilde (or is absent, or is
not a normal component). -/
def nonTildeFirst : List Component → Bool
  | [] => true
  | Component.normal part :: _ => part.head? ≠ some 126
  | _ :: _ => true

/-- A concrete environment: the current user's home is
`/Users/kinbote` and the user database is empty. -/
def envKinbote : Env :=
  { home_dir := some (strBytes "/Users/kinbote"), getpwnam := fun _ => none }

/-- A second environment with the same collaborator responses as
`envKinbote`. -/
def envKinbote2 : Env :=
  { home_dir := some (strBytes "/Users/kinbote"), getpwnam := fun _ => none }

/-- A concrete environment whose user database knows exactly the user
`alice`, with home directory `/home/alice`. -/
def envAlice : Env :=
  { home_dir := some (strBytes "/Users/kinbote"),
    getpwnam := fun n =>
      if n = strBytes "alice" then some { pw_dir := some (strBytes "/home/alice") }
      else none }

instance instDecEqExceptEU {ε α : Type} [DecidableEq ε] [DecidableEq α] :
    DecidableEq (Except ε α) := fun a b =>
  match a, b with
  | Except.ok x, Except.ok y => decidable_of_iff (x = y) (by simp)
  | Except.error e, Except.error f => decidable_of_iff (e = f) (by simp)
  | Except.ok _, Except.error _ => isFalse (fun h => by cases h)
  | Except.error _, Except.ok _ => isFalse (fun h => by cases h)

theorem pushPath_nil (p : List Component) : pushPath [] p = p := by
  unfold pushPath; split <;> simp

theorem pushPath_eq_append (buf rest : List Component)
    (h : Component.rootDir ∉ rest) : pushPath buf rest = buf ++ rest := by
  unfold pushPath
  split
  · next hh =>
    exfalso
    cases rest with
    | nil => simp at hh
    | cons a t => simp at hh; subst hh; exact h (by simp)
  · rfl

theorem compOfSeg_ne_root (s : List Nat) : compOfSeg s ≠ Component.rootDir := by
  unfold compOfSeg; split <;> simp

theorem rootDir_not_mem_map (l : List (List Nat)) :
    Component.rootDir ∉ l.map compOfSeg := by
  simp only [List.mem_map, not_exists]
  intro s hs
  exact compOfSeg_ne_root s hs.2

theorem includeCurDir_of_hasRoot {bs : List Nat} (h : hasRoot bs = true) :
    includeCurDir bs = false := by
  unfold includeCurDir
  simp [h]

theorem rootDir_not_mem_tail (bs : List Nat) :
    Component.rootDir ∉ (components bs).tail := by
  unfold components
  by_cases hr : hasRoot bs = true
  · simp only [hr, if_true, includeCurDir_of_hasRoot hr, if_false,
      List.singleton_append, List.nil_append, List.tail_cons]
    exact rootDir_not_mem_map _
  · simp only [Bool.not_eq_true] at hr
    simp only [hr, if_false, List.nil_append]
    by_cases hc : includeCurDir bs = true
    · simp only [hc, if_true, List.singleton_append, List.tail_cons]
      exact rootDir_not_mem_map _
    · simp only [Bool.not_eq_true] at hc
      simp only [hc, if_false, List.nil_append]
      intro hmem
      exact rootDir_not_mem_map _ (List.mem_of_mem_tail hmem)

theorem rest_not_root {p : List Nat} {c : Component} {rest : List Component}
    (hc : components p = c :: rest) : Component.rootDir ∉ rest := by
  have := rootDir_not_mem_tail p
  rw [hc] at this
  exact this

theorem splitSegsAux_no_sep (bs : List Nat) :
    ∀ acc : List Nat, 47 ∉ acc → ∀ s ∈ splitSegsAux bs acc, 47 ∉ s := by
  induction bs with
  | nil =>
    intro acc hacc s hs
    simp only [splitSegsAux, List.mem_singleton] at hs
    subst hs
    simpa using hacc
  | cons b rest ih =>
    intro acc hacc s hs
    simp only [splitSegsAux] at hs
    by_cases hb : b = 47
    · rw [if_pos hb] at hs
      rcases List.mem_cons.mp hs with h1 | h2
      · subst h1; simpa using hacc
      · exact ih [] (by simp) s h2
    · rw [if_neg hb] at hs
      refine ih (b :: acc) ?_ s hs
      simp only [List.mem_cons, not_or]
      exact ⟨fun h => hb h.symm, hacc⟩

theorem mem_components_normal {bs part : List Nat}
    (h : Component.normal part ∈ components bs) :
    47 ∉ part ∧ part ≠ [] ∧ part ≠ [46] ∧ part ≠ [46, 46] := by
  unfold components at h
  have h' : Component.normal part ∈ ((splitSegs bs).filter keepSeg).map compOfSeg := by
    rcases List.mem_append.mp h with h1 | h2
    · rcases List.mem_append.mp h1 with ha | hb
      · exfalso; revert ha; split <;> simp
      · exfalso; revert hb; split <;> simp
    · exact h2
  rcases List.mem_map.mp h' with ⟨s, hsMem, hsEq⟩
  rcases List.mem_filter.mp hsMem with ⟨hsSplit, hsKeep⟩
  unfold compOfSeg at hsEq
  by_cases h46 : s = [46, 46]
  · rw [if_pos h46] at hsEq; cases hsEq
  · rw [if_neg h46] at hsEq
    injection hsEq with hps
    subst hps
    unfold keepSeg at hsKeep
    simp only [Bool.and_eq_true, Bool.not_eq_true', List.isEmpty_eq_false,
      decide_eq_true_eq, ne_eq] at hsKeep
    exact ⟨splitSegsAux_no_sep bs [] (by simp) _ hsSplit,
      hsKeep.1, hsKeep.2, h46⟩

theorem splitSegsAux_no47 (bs : List Nat) :
    ∀ acc : List Nat, 47 ∉ bs → splitSegsAux bs acc = [acc.reverse ++ bs] := by
  induction bs with
  | nil => intro acc _; simp [splitSegsAux]
  | cons b rest ih =>
    intro acc h
    have hb : b ≠ 47 := fun hb => h (by simp [hb])
    simp only [splitSegsAux, if_neg hb]
    rw [ih (b :: acc) (fun hr => h (List.mem_cons_of_mem _ hr))]
    simp

theorem components_single_normal {part : List Nat}
    (hno47 : 47 ∉ part) (hne : part ≠ []) (h46 : part ≠ [46])
    (h4646 : part ≠ [46, 46]) :
    components part = [Component.normal part] := by
  obtain ⟨b, t, rfl⟩ : ∃ b t, part = b :: t := by
    cases part with
    | nil => exact absurd rfl hne
    | cons b t => exact ⟨b, t, rfl⟩
  have hb : b ≠ 47 := fun h => hno47 (by simp [h])
  have hroot : hasRoot (b :: t) = false := by
    simp [hasRoot, hb]
  have hcur : includeCurDir (b :: t) = false := by
    unfold includeCurDir
    rw [hroot]
    by_cases hb46 : b = 46
    · subst hb46
      cases t with
      | nil => exact absurd rfl h46
      | cons u us =>
        have hu : u ≠ 47 := fun h => hno47 (by simp [h])
        simp [hu]
    · simp [hb46]
  have hsplit : splitSegs (b :: t) = [b :: t] := by
    unfold splitSegs
    simpa using splitSegsAux_no47 (b :: t) [] hno47
  have hkeep : keepSeg (b :: t) = true := by
    unfold keepSeg
    simp [h46]
  unfold components
  rw [hroot, hcur, hsplit]
  simp only [List.filter_cons, hkeep, if_true, List.filter_nil, List.map_cons,
    List.map_nil]
  unfold compOfSeg
  rw [if_neg h4646]
  simp

theorem expandComponents_cons (env : Env) (c : Component) (rest : List Component)
    (h : Component.rootDir ∉ rest) :
    expandComponents env (c :: rest) =
      Except.map (fun pre => pre ++ rest) (expandFirst env c) := by
  have hp : ∀ X : List Component, pushPath (pushPath [] X) rest = pushPath [] X ++ rest :=
    fun X => pushPath_eq_append _ _ h
  cases c with
  | normal part =>
    simp only [expandComponents, expandFirst]
    by_cases hv : validUtf8 part = true
    · simp only [hv, if_true]
      by_cases h126 : part = [126]
      · simp only [h126, if_pos rfl]
        cases env.home_dir <;> simp [Except.map, hp]
      · simp only [if_neg h126]
        by_cases hh : part.head? = some 126
        · simp only [hh, if_pos rfl, if_true]
          by_cases hr : part.tail = strBytes "root"
          · simp only [if_pos hr]
            simp [Except.map, hp]
          · simp only [if_neg hr]
            cases get_user_home env part.tail <;> simp [Except.map, hp]
        · simp only [if_neg hh]
          simp [Except.map, hp]
    · have hv' : validUtf8 part = false := by
        revert hv
        cases validUtf8 part <;> simp
      simp [hv', Except.map, hp]
  | rootDir => simp [expandComponents, expandFirst, Except.map, hp]
  | curDir => simp [expandComponents, expandFirst, Except.map, hp]
  | parentDir => simp [expandComponents, expandFirst, Except.map, hp]

theorem expand_user_decomp (env : Env) (p : List Nat) (c : Component)
    (rest : List Component) (hc : components p = c :: rest) :
    expand_user env p = Except.map (fun pre => pre ++ rest) (expandFirst env c) := by
  unfold expand_user
  rw [hc]
  exact expandComponents_cons env c rest (rest_not_root hc)

theorem get_user_home_env_ext (env1 env2 : Env) (user : List Nat)
    (hg : ∀ n, env1.getpwnam n = env2.getpwnam n) :
    get_user_home env1 user = get_user_home env2 user := by
  unfold get_user_home
  rw [hg]

theorem expandFirst_env_ext (env1 env2 : Env) (c : Component)
    (hh : env1.home_dir = env2.home_dir)
    (hg : ∀ n, env1.getpwnam n = env2.getpwnam n) :
    expandFirst env1 c = expandFirst env2 c := by
  cases c with
  | normal part =>
    simp only [expandFirst]
    rw [hh, get_user_home_env_ext env1 env2 part.tail hg]
  | rootDir => rfl
  | curDir => rfl
  | parentDir => rfl

theorem expand_user_env_ext (env1 env2 : Env) (p : List Nat)
    (hh : env1.home_dir = env2.home_dir)
    (hg : ∀ n, env1.getpwnam n = env2.getpwnam n) :
    expand_user env1 p = expand_user env2 p := by
  unfold expand_user
  cases hcase : components p with
  | nil => rfl
  | cons c rest =>
    rw [expandComponents_cons env1 c rest (rest_not_root hcase),
      expandComponents_cons env2 c rest (rest_not_root hcase),
      expandFirst_env_ext env1 env2 c hh hg]

theorem components_root_bytes : components [47] = [Component.rootDir] := by decide

theorem components_cur_bytes : components [46] = [Component.curDir] := by decide

theorem components_parent_bytes :
    components [46, 46] = [Component.parentDir] := by decide

theorem bool_ne_true {b : Bool} (h : ¬b = true) : b = false := by
  cases b
  · rfl
  · exact absurd rfl h

/-- Claim C7: on the empty input path (no components at all),
`expand_user` succeeds with the empty path and consults no
collaborator (the result is the same in every environment). -/
theorem claim_C7_empty_path (env env' : Env) :
    strBytes "" = [] ∧
    expand_user env (strBytes "") = Except.ok [] ∧
    expand_user env (strBytes "") = expand_user env' (strBytes "") :=
  ⟨rfl, rfl, rfl⟩

/-- Claim C2: whenever the first component of the input does not start
with a tilde (including the empty path, a non-normal first component
such as the root, and tildes in later components), `expand_user`
succeeds and returns the input's own component sequence — the
identity transform under Rust `Path` equality. -/
theorem claim_C2_non_tilde_identity (env : Env) (p : List Nat)
    (h : nonTildeFirst (components p) = true) :
    expand_user env p = Except.ok (components p) := by
  cases hc : components p with
  | nil => simp [expand_user, hc, expandComponents]
  | cons c rest =>
    rw [expand_user_decomp env p c rest hc]
    have hfirst : expandFirst env c = Except.ok [c] := by
      cases c with
      | rootDir =>
        simp [expandFirst, compBytes, components_root_bytes, pushPath_nil]
      | curDir =>
        simp [expandFirst, compBytes, components_cur_bytes, pushPath_nil]
      | parentDir =>
        simp [expandFirst, compBytes, components_parent_bytes, pushPath_nil]
      | normal part =>
        rw [hc] at h
        have h126 : ¬part.head? = some 126 := by
          simpa [nonTildeFirst] using h
        have hwf := @mem_components_normal p part (by rw [hc]; simp)
        have hsingle :=
          components_single_normal hwf.1 hwf.2.1 hwf.2.2.1 hwf.2.2.2
        have hne : ¬part = [126] := fun hh => h126 (by simp [hh])
        by_cases hv : validUtf8 part = true
        · simp [expandFirst, hv, if_neg hne, if_neg h126, hsingle, pushPath_nil]
        · simp [expandFirst, bool_ne_true hv, hsingle, pushPath_nil]
    rw [hfirst]
    simp [Except.map]

theorem claim_C2_witness :
    nonTildeFirst (components (strBytes "/foo/~/bar")) = true ∧
    expand_user envKinbote (strBytes "/foo/~/bar") =
      Except.ok (components (strBytes "/foo/~/bar")) :=
  ⟨by decide, claim_C2_non_tilde_identity envKinbote (strBytes "/foo/~/bar") (by decide)⟩

/-- Claim C3: for every input and every classification of its first
component, the result of `expand_user` is obtained by resolving the
first component alone (`expandFirst`, which never looks at the tail)
and appending the remaining components byte-identically, in order;
in particular, with the current user's home `/Users/kinbote`,
`~/foo/~root/bar` expands to `/Users/kinbote/foo/~root/bar` with the
second `~root` untouched. -/
theorem claim_C3_frame_preservation (env : Env) (p : List Nat) (c : Component)
    (rest : List Component) (hc : components p = c :: rest) :
    expand_user env p = Except.map (fun pre => pre ++ rest) (expandFirst env c) ∧
    (env.home_dir = some (strBytes "/Users/kinbote") →
      expand_user env (strBytes "~/foo/~root/bar") =
        Except.ok (components (strBytes "/Users/kinbote/foo/~root/bar"))) := by
  constructor
  · exact expand_user_decomp env p c rest hc
  · intro hkb
    rw [expand_user_decomp env (strBytes "~/foo/~root/bar")
      (Component.normal [126])
      [Component.normal (strBytes "foo"), Component.normal (strBytes "~root"),
        Component.normal (strBytes "bar")] (by decide)]
    have hv : validUtf8 [126] = true := by decide
    simp [expandFirst, hv, hkb, pushPath_nil, Except.map]
    decide

theorem claim_C3_witness :
    components (strBytes "~/foo/~root/bar") =
      Component.normal [126] ::
        [Component.normal (strBytes "foo"), Component.normal (strBytes "~root"),
          Component.normal (strBytes "bar")] ∧
    envKinbote.home_dir = some (strBytes "/Users/kinbote") ∧
    expand_user envKinbote (strBytes "~/foo/~root/bar") =
      Except.ok (components (strBytes "/Users/kinbote/foo/~root/bar")) :=
  ⟨by decide, rfl,
    (claim_C3_frame_preservation envKinbote (strBytes "~/foo/~root/bar")
      (Component.normal [126])
      [Component.normal (strBytes "foo"), Component.normal (strBytes "~root"),
        Component.normal (strBytes "bar")] (by decide)).2 rfl⟩

/-- Claim C4: when the first component is exactly `~`, `expand_user`
consults the current-user-home collaborator: a returned path becomes
the replacement prefix and the call succeeds; no returned path fails
with `CurrentUserHomeNotFound`, which carries no payload; and the
directory service is never consulted (any environment with the same
`home_dir` response gives the same result). -/
theorem claim_C4_current_user (env : Env) (p : List Nat) (rest : List Component)
    (hc : components p = Component.normal [126] :: rest) :
    (∀ d : List Nat, env.home_dir = some d →
      expand_user env p = Except.ok (components d ++ rest)) ∧
    (env.home_dir = none →
      expand_user env p = Except.error ExpandUserError.currentUserHomeNotFound) ∧
    (∀ env' : Env, env'.home_dir = env.home_dir →
      expand_user env' p = expand_user env p) := by
  have hv : validUtf8 [126] = true := by decide
  refine ⟨?_, ?_, ?_⟩
  · intro d hdd
    rw [expand_user_decomp env p (Component.normal [126]) rest hc]
    simp [expandFirst, hv, hdd, pushPath_nil, Except.map]
  · intro hdd
    rw [expand_user_decomp env p (Component.normal [126]) rest hc]
    simp [expandFirst, hv, hdd, Except.map]
  · intro env' hh
    rw [expand_user_decomp env p (Component.normal [126]) rest hc,
      expand_user_decomp env' p (Component.normal [126]) rest hc]
    simp [expandFirst, hv, hh]

theorem claim_C4_witness :
    components (strBytes "~") = Component.normal [126] :: [] ∧
    expand_user envKinbote (strBytes "~") =
      Except.ok (components (strBytes "/Users/kinbote") ++ []) :=
  ⟨by decide,
    (claim_C4_current_user envKinbote (strBytes "~") [] (by decide)).1
      (strBytes "/Users/kinbote") rfl⟩

/-- Claim C5: when the first component is exactly `~root`,
`expand_user` replaces it with the literal `/root` prefix, cannot
fail, and is independent of the whole environment (no collaborator is
consulted); in particular `~root` expands to `/root` and
`~root/.bashrc` to `/root/.bashrc`. -/
theorem claim_C5_root_shortcut (env env' : Env) (p : List Nat)
    (rest : List Component)
    (hc : components p = Component.normal (strBytes "~root") :: rest) :
    expand_user env p =
      Except.ok (Component.rootDir :: Component.normal (strBytes "root") :: rest) ∧
    expand_user env p = expand_user env' p ∧
    expand_user env (strBytes "~root") = Except.ok (components (strBytes "/root")) ∧
    expand_user env (strBytes "~root/.bashrc") =
      Except.ok (components (strBytes "/root/.bashrc")) := by
  have hfirst : ∀ e : Env, expandFirst e (Component.normal (strBytes "~root")) =
      Except.ok [Component.rootDir, Component.normal (strBytes "root")] :=
    fun e => rfl
  refine ⟨?_, ?_, rfl, rfl⟩
  · rw [expand_user_decomp env p (Component.normal (strBytes "~root")) rest hc,
      hfirst]
    simp [Except.map]
  · rw [expand_user_decomp env p (Component.normal (strBytes "~root")) rest hc,
      expand_user_decomp env' p (Component.normal (strBytes "~root")) rest hc,
      hfirst, hfirst]

theorem claim_C5_witness :
    components (strBytes "~root/.bashrc") =
      Component.normal (strBytes "~root") ::
        [Component.normal (strBytes ".bashrc")] ∧
    expand_user envKinbote (strBytes "~root/.bashrc") =
      Except.ok (Component.rootDir :: Component.normal (strBytes "root") ::
        [Component.normal (strBytes ".bashrc")]) :=
  ⟨by decide,
    (claim_C5_root_shortcut envKinbote envAlice (strBytes "~root/.bashrc")
      [Component.normal (strBytes ".bashrc")] (by decide)).1⟩

/-- Claim C1: for a first component `~name` with `name ≠ root`
(nonempty, decodable), the resolution fails with
`InvalidTildeExpression name` iff `name` holds a null byte; otherwise
it fails with `UserNotFound name` iff the directory service has no
record; otherwise it fails with `UserHomeNotFound name` iff the
record's home field is absent; otherwise it succeeds with the record's
raw home-directory bytes as the replacement prefix — the checks in
exactly that order. -/
theorem claim_C1_named_user_errors (env : Env) (p : List Nat) (name : List Nat)
    (rest : List Component)
    (hc : components p = Component.normal (126 :: name) :: rest)
    (hnil : name ≠ [])
    (hroot : name ≠ strBytes "root")
    (hv : validUtf8 (126 :: name) = true) :
    (expand_user env p = Except.error (ExpandUserError.invalidTildeExpression name)
      ↔ 0 ∈ name) ∧
    (0 ∉ name →
      (expand_user env p = Except.error (ExpandUserError.userNotFound name)
        ↔ env.getpwnam name = none)) ∧
    (0 ∉ name → ∀ pw : Passwd, env.getpwnam name = some pw →
      (expand_user env p = Except.error (ExpandUserError.userHomeNotFound name)
        ↔ pw.pw_dir = none)) ∧
    (0 ∉ name → ∀ (pw : Passwd) (d : List Nat),
      env.getpwnam name = some pw → pw.pw_dir = some d →
      expand_user env p = Except.ok (components d ++ rest)) := by
  have hne : ¬(126 :: name) = [126] := by
    intro h
    injection h with _ h2
    exact hnil h2
  have hfirst : expandFirst env (Component.normal (126 :: name)) =
      Except.map components (get_user_home env name) := by
    simp only [expandFirst, hv, if_true]
    rw [if_neg hne, if_pos (by simp : (126 :: name).head? = some 126),
      if_neg (by simpa using hroot : ¬(126 :: name).tail = strBytes "root")]
    simp only [List.tail_cons]
    cases get_user_home env name <;> simp [Except.map, pushPath_nil]
  have hE : expand_user env p =
      Except.map (fun pre => pre ++ rest)
        (Except.map components (get_user_home env name)) := by
    rw [expand_user_decomp env p _ rest hc, hfirst]
  by_cases h0 : 0 ∈ name
  · have hg : get_user_home env name =
        Except.error (ExpandUserError.invalidTildeExpression name) := by
      unfold get_user_home
      rw [if_pos h0]
    rw [hg] at hE
    refine ⟨by simp [hE, Except.map, h0], ?_, ?_, ?_⟩
    · intro hcontra; exact absurd h0 hcontra
    · intro hcontra; exact absurd h0 hcontra
    · intro hcontra; exact absurd h0 hcontra
  · cases hg : env.getpwnam name with
    | none =>
      have hgu : get_user_home env name =
          Except.error (ExpandUserError.userNotFound name) := by
        unfold get_user_home
        rw [if_neg h0]
        simp only [hg]
      rw [hgu] at hE
      refine ⟨by simp [hE, Except.map, h0], ?_, ?_, ?_⟩
      · intro _; simp [hE, Except.map, hg]
      · intro _ pw hpw; exact Option.noConfusion hpw
      · intro _ pw d hpw; exact Option.noConfusion hpw
    | some pw =>
      cases hpd : pw.pw_dir with
      | none =>
        have hgu : get_user_home env name =
            Except.error (ExpandUserError.userHomeNotFound name) := by
          unfold get_user_home
          rw [if_neg h0]
          simp only [hg, hpd]
        rw [hgu] at hE
        refine ⟨by simp [hE, Except.map, h0], ?_, ?_, ?_⟩
        · intro _; simp [hE, Except.map, hg]
        · intro _ pw' hpw'
          injection hpw' with hpw2
          subst hpw2
          simp [hE, Except.map, hpd]
        · intro _ pw' d hpw' hd
          injection hpw' with hpw2
          subst hpw2
          rw [hpd] at hd
          exact Option.noConfusion hd
      | some d =>
        have hgu : get_user_home env name = Except.ok d := by
          unfold get_user_home
          rw [if_neg h0]
          simp only [hg, hpd]
        rw [hgu] at hE
        refine ⟨by simp [hE, Except.map, h0], ?_, ?_, ?_⟩
        · intro _; simp [hE, Except.map, hg]
        · intro _ pw' hpw'
          injection hpw' with hpw2
          subst hpw2
          simp [hE, Except.map, hpd]
        · intro _ pw' d' hpw' hd
          injection hpw' with hpw2
          subst hpw2
          rw [hpd] at hd
          injection hd with hd2
          subst hd2
          simp [hE, Except.map]

theorem claim_C1_witness :
    components (strBytes "~alice") =
      Component.normal (126 :: strBytes "alice") :: [] ∧
    strBytes "alice" ≠ [] ∧
    strBytes "alice" ≠ strBytes "root" ∧
    validUtf8 (126 :: strBytes "alice") = true ∧
    expand_user envAlice (strBytes "~alice") =
      Except.ok (components (strBytes "/home/alice") ++ []) :=
  ⟨by decide, by decide, by decide, by decide,
    (claim_C1_named_user_errors envAlice (strBytes "~alice") (strBytes "alice")
      [] (by decide) (by decide) (by decide) (by decide)).2.2.2 (by decide)
      { pw_dir := some (strBytes "/home/alice") } (strBytes "/home/alice")
      (by decide) rfl⟩

/-- Claim C6: a first component that decodes as UTF-8, starts with `~`
and is longer than the bare tilde is treated as a named-user request
for the remainder after the tilde: `root` short-circuits to the
literal `/root` prefix, and any other remainder (including degenerate
ones) goes through the directory-service resolution. -/
theorem claim_C6_named_user (env : Env) (p : List Nat) (part : List Nat)
    (rest : List Component)
    (hc : components p = Component.normal part :: rest)
    (hv : validUtf8 part = true)
    (hh : part.head? = some 126)
    (hne : part ≠ [126]) :
    expand_user env p =
      if part.tail = strBytes "root" then
        Except.ok (components (strBytes "/root") ++ rest)
      else
        Except.map (fun home => components home ++ rest)
          (get_user_home env part.tail) := by
  rw [expand_user_decomp env p _ rest hc]
  by_cases hr : part.tail = strBytes "root"
  · rw [if_pos hr]
    simp only [expandFirst, hv, if_true]
    rw [if_neg hne, if_pos hh, if_pos hr]
    simp [Except.map, pushPath_nil]
  · rw [if_neg hr]
    simp only [expandFirst, hv, if_true]
    rw [if_neg hne, if_pos hh, if_neg hr]
    cases get_user_home env part.tail <;> simp [Except.map, pushPath_nil]

theorem claim_C6_witness :
    components (strBytes "~~") = Component.normal [126, 126] :: [] ∧
    validUtf8 [126, 126] = true ∧
    ([126, 126] : List Nat).head? = some 126 ∧
    ([126, 126] : List Nat) ≠ [126] ∧
    expand_user envAlice (strBytes "~~") =
      (if ([126, 126] : List Nat).tail = strBytes "root" then
        Except.ok (components (strBytes "/root") ++ [])
      else
        Except.map (fun home => components home ++ [])
          (get_user_home envAlice ([126, 126] : List Nat).tail)) :=
  ⟨by decide, by decide, by decide, by decide,
    claim_C6_named_user envAlice (strBytes "~~") [126, 126] [] (by decide)
      (by decide) (by decide) (by decide)⟩

/-- Claim C8: `expand_user` is deterministic and free of observable
side effects: two calls with the same input path and the same
collaborator responses (current-user home and directory-service
lookup) return identical results; in the pure embedding no state
outlives a call. -/
theorem claim_C8_deterministic (env1 env2 : Env) (p : List Nat)
    (hh : env1.home_dir = env2.home_dir)
    (hg : ∀ n, env1.getpwnam n = env2.getpwnam n) :
    expand_user env1 p = expand_user env2 p :=
  expand_user_env_ext env1 env2 p hh hg

theorem claim_C8_witness :
    envKinbote.home_dir = envKinbote2.home_dir ∧
    (∀ n, envKinbote.getpwnam n = envKinbote2.getpwnam n) ∧
    expand_user envKinbote (strBytes "~") = expand_user envKinbote2 (strBytes "~") :=
  ⟨rfl, fun _ => rfl,
    claim_C8_deterministic envKinbote envKinbote2 (strBytes "~") rfl fun _ => rfl⟩

/-- Claim C9: a normal first component whose bytes are not valid UTF-8
is pushed unchanged — `expand_user` succeeds with the input's own
components, with no collaborator lookup (the result is the same in
every environment) — even when the component's first byte is `0x7E`. -/
theorem claim_C9_invalid_utf8 (env env' : Env) (p : List Nat) (part : List Nat)
    (rest : List Component)
    (hc : components p = Component.normal part :: rest)
    (hv : validUtf8 part = false) :
    expand_user env p = Except.ok (Component.normal part :: rest) ∧
    expand_user env p = expand_user env' p := by
  have hwf := @mem_components_normal p part (by rw [hc]; simp)
  have hsingle := components_single_normal hwf.1 hwf.2.1 hwf.2.2.1 hwf.2.2.2
  have hfirst : ∀ e : Env, expandFirst e (Component.normal part) =
      Except.ok [Component.normal part] := by
    intro e
    simp [expandFirst, hv, hsingle, pushPath_nil]
  constructor
  · rw [expand_user_decomp env p _ rest hc, hfirst]
    simp [Except.map]
  · rw [expand_user_decomp env p _ rest hc,
      expand_user_decomp env' p _ rest hc, hfirst, hfirst]

theorem claim_C9_witness :
    components [126, 255] = Component.normal [126, 255] :: [] ∧
    validUtf8 [126, 255] = false ∧
    expand_user envAlice [126, 255] = Except.ok (Component.normal [126, 255] :: []) ∧
    expand_user envAlice [126, 255] = expand_user envKinbote [126, 255] :=
  ⟨by decide, by decide,
    (claim_C9_invalid_utf8 envAlice envKinbote [126, 255] [126, 255] []
      (by decide) (by decide)).1,
    (claim_C9_invalid_utf8 envAlice envKinbote [126, 255] [126, 255] []
      (by decide) (by decide)).2⟩

/-- Claim C10: `expand_user` is total — every input and every
environment yields a value (a success or one of the typed errors,
never a panic) — and the byte slice after the leading `~` of a valid
UTF-8 component is itself at a character boundary: stripping the
one-byte `~` from valid UTF-8 bytes leaves valid UTF-8 bytes. -/
theorem claim_C10_total (env : Env) (p : List Nat) :
    ((∃ out, expand_user env p = Except.ok out) ∨
      (∃ e, expand_user env p = Except.error e)) ∧
    (∀ name : List Nat, validUtf8 (126 :: name) = true → validUtf8 name = true) := by
  constructor
  · cases h : expand_user env p with
    | ok out => exact Or.inl ⟨out, rfl⟩
    | error e => exact Or.inr ⟨e, rfl⟩
  · intro name hv
    unfold validUtf8 at hv
    rwa [if_pos (by norm_num : (126 : Nat) < 128)] at hv

theorem claim_C10_witness :
    ((∃ out, expand_user envKinbote (strBytes "~root") = Except.ok out) ∨
      (∃ e, expand_user envKinbote (strBytes "~root") = Except.error e)) ∧
    validUtf8 (strBytes "root") = true :=
  ⟨(claim_C10_total envKinbote (strBytes "~root")).1,
    (claim_C10_total envKinbote (strBytes "~root")).2 (strBytes "root") (by decide)⟩

end ExpandUser
